import Mathlib

/-!
# Movie list application (`App.js`): item store and edit-session controller

A shallow embedding of the single source file `App.js`.

* The SQLite table `items (id INTEGER PRIMARY KEY AUTOINCREMENT, name TEXT)` is a
  list of rows kept in rowid order together with the AUTOINCREMENT high-water
  mark.  Row ids are unbounded naturals.
* The React state of `App` (`text`, `items`, `editingItem`) and the module level
  handle `db` form `AppState`.
* A handler that runs alone is a function from the state to the next state and
  the list of observable effects (SQL statements and alerts) it performed, in
  order: `addItem`, `updateItem`, `editItem`, `confirmDeleteItem`, `fetchItems`.
* The handlers are `async`: each `await` of a SQL statement suspends the handler
  and lets another press start.  `Suspended`, `resume` and `liveStep` cut the same
  handlers at their `await`s; statements complete in the order they were
  issued.  `alone_eq_step` shows that a handler left alone until its statements
  have completed does what the function above says.
-/

namespace MovieApp

/-! ## Strings: `String.prototype.trim` -/

/-- The code points removed by `String.prototype.trim`: ECMAScript `WhiteSpace`
(TAB, VT, FF, SP, NBSP, ZWNBSP and category Zs) and `LineTerminator`
(LF, CR, LS, PS). -/
def isTrimChar (c : Char) : Bool :=
  let n := c.toNat
  n = 0x09 || n = 0x0A || n = 0x0B || n = 0x0C || n = 0x0D || n = 0x20 || n = 0xA0 ||
  n = 0x1680 || (0x2000 ≤ n && n ≤ 0x200A) || n = 0x2028 || n = 0x2029 ||
  n = 0x202F || n = 0x205F || n = 0x3000 || n = 0xFEFF

/-- The method `trim` on the list of characters: strip from the front, then from the back. -/
def trimChars (cs : List Char) : List Char :=
  ((cs.dropWhile isTrimChar).reverse.dropWhile isTrimChar).reverse

/-- The call `text.trim()`. -/
def jsTrim (s : String) : String :=
  String.mk (trimChars s.data)

/-! ## The `items` table -/

/-- One row of `items`: `id INTEGER PRIMARY KEY AUTOINCREMENT, name TEXT`. -/
structure Row where
  id : Nat
  name : String
deriving DecidableEq, Repr

/-- The table `items`, rows in rowid order, and the largest rowid ever handed
out (`sqlite_sequence`), which AUTOINCREMENT never reuses. -/
structure Database where
  rows : List Row
  seq : Nat
deriving DecidableEq, Repr

/-- Largest rowid present in the table (0 for the empty table). -/
def maxId : List Row → Nat
  | [] => 0
  | r :: rs => max r.id (maxId rs)

namespace Database

/-- The table right after `CREATE TABLE IF NOT EXISTS items (...)` on a fresh file. -/
def empty : Database := { rows := [], seq := 0 }

/-- The rowid AUTOINCREMENT gives to the next inserted row. -/
def nextId (d : Database) : Nat :=
  max d.seq (maxId d.rows) + 1

/-- The query `SELECT id FROM items WHERE name = ?;` -/
def selectIdByName (d : Database) (name : String) : List Nat :=
  (d.rows.filter (fun r => decide (r.name = name))).map (fun r => r.id)

/-- The query `SELECT id, name FROM items;` -/
def selectAll (d : Database) : List Row :=
  d.rows

/-- The statement `INSERT INTO items (name) VALUES (?);` -/
def insert (d : Database) (name : String) : Database :=
  { rows := d.rows ++ [{ id := d.nextId, name := name }], seq := d.nextId }

/-- The statement `UPDATE items SET name = ? WHERE id = ?;` -/
def update (d : Database) (name : String) (id : Nat) : Database :=
  { d with rows := d.rows.map (fun r => if r.id = id then { r with name := name } else r) }

/-- The statement `DELETE FROM items WHERE id = ?;` -/
def delete (d : Database) (id : Nat) : Database :=
  { d with rows := d.rows.filter (fun r => decide (r.id ≠ id)) }

end Database

/-- The function `checkForDuplicate(name)`: `results.length > 0` for the select-id-by-name query. -/
def checkForDuplicate (d : Database) (name : String) : Bool :=
  decide ((d.selectIdByName name).length > 0)

/-! ## Component state -/

/-- An element of the `items` state: `{ id, name, index }`. -/
structure Item where
  id : Nat
  name : String
  index : Nat
deriving DecidableEq, Repr

/-- The handle `db` and the three `useState` cells of `App`. -/
structure AppState where
  db : Option Database
  text : String
  items : List Item
  editingItem : Option Item
deriving DecidableEq, Repr

/-- What a handler does that is visible outside the component state. -/
inductive Effect where
  | selectIdByName (name : String)
  | selectAll
  | insert (name : String)
  | update (name : String) (id : Nat)
  | delete (id : Nat)
  | alert (title message : String)
  | confirmPrompt (title message : String)
deriving DecidableEq, Repr

/-- The alert `Alert.alert('Error', 'Item name cannot be empty!')`. -/
def emptyNameAlert : Effect := Effect.alert "Error" "Item name cannot be empty!"

/-- The alert `Alert.alert('Error', 'This item already exists!')`. -/
def duplicateAlert : Effect := Effect.alert "Error" "This item already exists!"

/-- The alert `Alert.alert('Action Blocked', 'You cannot delete items while updating one.')`. -/
def actionBlockedAlert : Effect :=
  Effect.alert "Action Blocked" "You cannot delete items while updating one."

/-- The two-button `Alert.alert('Confirm Delete', ...)`. -/
def confirmDeletePrompt : Effect :=
  Effect.confirmPrompt "Confirm Delete" "Are you sure you want to delete this item?"

/-- The mapping `results.map((row, index) => (id, name, index + 1))`, counting from `k`. -/
def toItemsFrom : Nat → List Row → List Item
  | _, [] => []
  | k, r :: rs => { id := r.id, name := r.name, index := k + 1 } :: toItemsFrom (k + 1) rs

/-- The list `fetchItems` stores with `setItems`. -/
def toItems (rows : List Row) : List Item :=
  toItemsFrom 0 rows

/-- The handler `fetchItems()`. -/
def fetchItems (s : AppState) : AppState × List Effect :=
  match s.db with
  | none => (s, [])
  | some d => ({ s with items := toItems d.selectAll }, [Effect.selectAll])

/-- The mount effect `setupDatabase().then(fetchItems)`, on a table `d` found
in (or created in) `items.db`. -/
def mount (d : Database) : AppState :=
  (fetchItems { db := some d, text := "", items := [], editingItem := none }).1

/-- The handler `addItem()`. -/
def addItem (s : AppState) : AppState × List Effect :=
  let trimmedText := jsTrim s.text
  match s.db with
  | none => (s, [emptyNameAlert])
  | some d =>
    if trimmedText = "" then (s, [emptyNameAlert])
    else if checkForDuplicate d trimmedText then
      (s, [Effect.selectIdByName trimmedText, duplicateAlert])
    else
      let s1 : AppState := { s with db := some (d.insert trimmedText), text := "" }
      let r := fetchItems s1
      (r.1, [Effect.selectIdByName trimmedText, Effect.insert trimmedText] ++ r.2)

/-- The handler `editItem(item)`. -/
def editItem (item : Item) (s : AppState) : AppState × List Effect :=
  ({ s with text := item.name, editingItem := some item }, [])

/-- The handler `updateItem()`. -/
def updateItem (s : AppState) : AppState × List Effect :=
  let trimmedText := jsTrim s.text
  match s.db, s.editingItem with
  | some d, some e =>
    if trimmedText = "" then (s, [emptyNameAlert])
    else if trimmedText ≠ e.name ∧ checkForDuplicate d trimmedText = true then
      (s, [Effect.selectIdByName trimmedText, duplicateAlert])
    else
      let pre : List Effect :=
        if trimmedText ≠ e.name then [Effect.selectIdByName trimmedText] else []
      let s1 : AppState :=
        { s with db := some (d.update trimmedText e.id), text := "", editingItem := none }
      let r := fetchItems s1
      (r.1, pre ++ [Effect.update trimmedText e.id] ++ r.2)
  | _, _ => (s, [emptyNameAlert])

/-- The button pressed in the "Confirm Delete" prompt; dismissing it counts as cancel. -/
inductive Answer where
  | cancel
  | delete
deriving DecidableEq, Repr

/-- The handler `confirmDeleteItem(id)`, with the user's answer to the prompt if one is shown. -/
def confirmDeleteItem (id : Nat) (answer : Answer) (s : AppState) : AppState × List Effect :=
  match s.editingItem with
  | some _ => (s, [actionBlockedAlert])
  | none =>
    match answer with
    | Answer.cancel => (s, [confirmDeletePrompt])
    | Answer.delete =>
      match s.db with
      | none => (s, [confirmDeletePrompt])
      | some d =>
        let r := fetchItems { s with db := some (d.delete id) }
        (r.1, [confirmDeletePrompt, Effect.delete id] ++ r.2)

/-- The input callback `onChangeText=(setText)`. -/
def setText (t : String) (s : AppState) : AppState :=
  { s with text := t }

/-- The button: `onPress=(editingItem ? updateItem : addItem)`. -/
def pressSubmit (s : AppState) : AppState × List Effect :=
  match s.editingItem with
  | some _ => updateItem s
  | none => addItem s

/-- Typing `raw` into the input and pressing the button. -/
def submit (raw : String) (s : AppState) : AppState × List Effect :=
  pressSubmit (setText raw s)

/-- What the user can do. -/
inductive Op where
  | submit (raw : String)
  | beginEdit (item : Item)
  | requestDelete (id : Nat) (answer : Answer)
deriving DecidableEq, Repr

/-- One user action. -/
def step (s : AppState) : Op → AppState × List Effect
  | Op.submit raw => submit raw s
  | Op.beginEdit item => editItem item s
  | Op.requestDelete id answer => confirmDeleteItem id answer s

/-- The Edit link exists only on rows of the displayed list. -/
def enabled (s : AppState) : Op → Bool
  | Op.beginEdit item => decide (item ∈ s.items)
  | _ => true

/-- Run a sequence of user actions; `none` when an action is not offered by the screen. -/
def run : AppState → List Op → Option AppState
  | s, [] => some s
  | s, op :: ops => if enabled s op then run (step s op).1 ops else none

/-- The state after mounting on a fresh database file. -/
def initialState : AppState :=
  mount Database.empty


/-- Creating the given names one after the other: type the name, press the button. -/
def createAll : List String → AppState → AppState
  | [], s => s
  | n :: ns, s => createAll ns (submit n s).1

/-- Rows carrying the given names with consecutive ids `k + 1`, `k + 2`, ... -/
def rowsFrom : Nat → List String → List Row
  | _, [] => []
  | k, n :: ns => { id := k + 1, name := n } :: rowsFrom (k + 1) ns

/-- The row an element of the displayed list was built from. -/
def Item.toRow (i : Item) : Row :=
  { id := i.id, name := i.name }

/-- The table and the session agree: the database is open, row ids are pairwise
distinct, row names are pairwise distinct, non-empty and already trimmed, the
displayed list is the one `fetchItems` builds from the table, and the edit
target, if any, is a row of the table. -/
structure Consistent (s : AppState) (d : Database) : Prop where
  db_eq : s.db = some d
  ids_nodup : (d.rows.map Row.id).Nodup
  names_nodup : (d.rows.map Row.name).Nodup
  names_trimmed : ∀ r ∈ d.rows, r.name ≠ "" ∧ jsTrim r.name = r.name
  items_eq : s.items = toItems d.rows
  target_mem : ∀ e, s.editingItem = some e → e.toRow ∈ d.rows

/-- The scenario state after the first `submit("Inception")`. -/
def scenario1 : AppState :=
  { db := some ⟨[⟨1, "Inception"⟩], 1⟩, text := "", items := [⟨1, "Inception", 1⟩],
    editingItem := none }

/-- The scenario state after the edit to "Interstellar". -/
def scenario3 : AppState :=
  { db := some ⟨[⟨1, "Interstellar"⟩], 1⟩, text := "", items := [⟨1, "Interstellar", 1⟩],
    editingItem := none }

/-! ## The handlers cut at their `await`s -/

/-- A handler suspended at an `await` of a SQL statement, with the values its
closure holds. -/
inductive Suspended where
  /-- Suspended in `addItem` at `await checkForDuplicate(trimmedText)`. -/
  | addCheck (trimmedText : String)
  /-- Suspended in `addItem` at `await db.runAsync('INSERT ...', [trimmedText])`. -/
  | addInsert (trimmedText : String)
  /-- Suspended in `updateItem` at `await checkForDuplicate(trimmedText)`. -/
  | updateCheck (trimmedText : String) (editingItem : Item)
  /-- Suspended in `updateItem` at `await db.runAsync('UPDATE ...', [trimmedText, editingItem.id])`. -/
  | updateWrite (trimmedText : String) (editingItem : Item)
  /-- Suspended in the Delete button's `onPress` at `await db.runAsync('DELETE ...', [id])`. -/
  | deleteWrite (id : Nat)
  /-- Suspended in `fetchItems` at `await db.getAllAsync('SELECT id, name FROM items;')`. -/
  | fetch
deriving DecidableEq, Repr

/-- The component state, the suspended handlers (oldest statement first) and the
effects observed so far. -/
structure Live where
  app : AppState
  pending : List Suspended
  log : List Effect
deriving DecidableEq, Repr

/-- The part of `fetchItems()` before its `await`: `if (!db) return;`, then the query is issued. -/
def fetchItemsStart (s : AppState) : List Suspended :=
  match s.db with
  | none => []
  | some _ => [Suspended.fetch]

/-- The part of `addItem()` before its first `await`. -/
def addItemStart (s : AppState) : List Suspended × List Effect :=
  let trimmedText := jsTrim s.text
  match s.db with
  | none => ([], [emptyNameAlert])
  | some _ =>
    if trimmedText = "" then ([], [emptyNameAlert])
    else ([Suspended.addCheck trimmedText], [])

/-- The part of `updateItem()` before its first `await`. -/
def updateItemStart (s : AppState) : List Suspended × List Effect :=
  let trimmedText := jsTrim s.text
  match s.db, s.editingItem with
  | some _, some e =>
    if trimmedText = "" then ([], [emptyNameAlert])
    else if trimmedText ≠ e.name then ([Suspended.updateCheck trimmedText e], [])
    else ([Suspended.updateWrite trimmedText e], [])
  | _, _ => ([], [emptyNameAlert])

/-- The part of `confirmDeleteItem(id)` and of the prompt's button before the `await`. -/
def confirmDeleteItemStart (id : Nat) (answer : Answer) (s : AppState) :
    List Suspended × List Effect :=
  match s.editingItem with
  | some _ => ([], [actionBlockedAlert])
  | none =>
    match answer with
    | Answer.cancel => ([], [confirmDeletePrompt])
    | Answer.delete =>
      match s.db with
      | none => ([], [confirmDeletePrompt])
      | some _ => ([Suspended.deleteWrite id], [confirmDeletePrompt])

/-- The awaited statement of a suspended handler is executed and the handler
continues up to its next `await` or to its end. -/
def resume (t : Suspended) (s : AppState) : AppState × List Suspended × List Effect :=
  match s.db with
  | none => (s, [], [])
  | some d =>
    match t with
    | Suspended.addCheck trimmedText =>
      if checkForDuplicate d trimmedText then
        (s, [], [Effect.selectIdByName trimmedText, duplicateAlert])
      else (s, [Suspended.addInsert trimmedText], [Effect.selectIdByName trimmedText])
    | Suspended.addInsert trimmedText =>
      let s1 : AppState := { s with db := some (d.insert trimmedText), text := "" }
      (s1, fetchItemsStart s1, [Effect.insert trimmedText])
    | Suspended.updateCheck trimmedText e =>
      if checkForDuplicate d trimmedText then
        (s, [], [Effect.selectIdByName trimmedText, duplicateAlert])
      else (s, [Suspended.updateWrite trimmedText e], [Effect.selectIdByName trimmedText])
    | Suspended.updateWrite trimmedText e =>
      let s1 : AppState :=
        { s with db := some (d.update trimmedText e.id), text := "", editingItem := none }
      (s1, fetchItemsStart s1, [Effect.update trimmedText e.id])
    | Suspended.deleteWrite id =>
      let s1 : AppState := { s with db := some (d.delete id) }
      (s1, fetchItemsStart s1, [Effect.delete id])
    | Suspended.fetch => ({ s with items := toItems d.selectAll }, [], [Effect.selectAll])

/-- What can happen next: the user acts, or the oldest issued statement completes. -/
inductive Event where
  | user (op : Op)
  | complete
deriving DecidableEq, Repr

/-- One event.  A user action runs the synchronous part of its handler; `none`
when the screen does not offer the action or no statement is outstanding. -/
def liveStep (l : Live) : Event → Option Live
  | Event.user (Op.submit raw) =>
    let s := setText raw l.app
    let r := match s.editingItem with
      | some _ => updateItemStart s
      | none => addItemStart s
    some { app := s, pending := l.pending ++ r.1, log := l.log ++ r.2 }
  | Event.user (Op.beginEdit item) =>
    if item ∈ l.app.items then
      some { app := (editItem item l.app).1, pending := l.pending, log := l.log }
    else none
  | Event.user (Op.requestDelete id answer) =>
    let r := confirmDeleteItemStart id answer l.app
    some { app := l.app, pending := l.pending ++ r.1, log := l.log ++ r.2 }
  | Event.complete =>
    match l.pending with
    | [] => none
    | t :: ts =>
      let r := resume t l.app
      some { app := r.1, pending := ts ++ r.2.1, log := l.log ++ r.2.2 }

/-- Run a sequence of events. -/
def liveRun : Live → List Event → Option Live
  | l, [] => some l
  | l, ev :: evs =>
    match liveStep l ev with
    | none => none
    | some l2 => liveRun l2 evs

/-- Let up to `n` outstanding statements complete, oldest first. -/
def settle : Nat → Live → Live
  | 0, l => l
  | n + 1, l =>
    match liveStep l Event.complete with
    | none => l
    | some l2 => settle n l2

/-- The state in which nothing is suspended and nothing was observed yet. -/
def quiet (s : AppState) : Live :=
  { app := s, pending := [], log := [] }

/-! ## Trimming -/

theorem dropWhile_eq_nil_of_all (p : Char → Bool) (cs : List Char)
    (h : ∀ c ∈ cs, p c = true) : cs.dropWhile p = [] := by
  induction cs with
  | nil => rfl
  | cons c cs ih =>
    have hc : p c = true := h c (List.mem_cons_self c cs)
    simp only [List.dropWhile_cons, hc, if_true]
    exact ih (fun x hx => h x (List.mem_cons_of_mem c hx))

theorem jsTrim_of_blank (raw : String) (h : ∀ c ∈ raw.data, isTrimChar c = true) :
    jsTrim raw = "" := by
  unfold jsTrim trimChars
  rw [dropWhile_eq_nil_of_all isTrimChar raw.data h]
  rfl

/-! ## Validation failures -/

/-- C3: a text that is empty or made only of characters that `trim` removes is
rejected with the empty-name alert by `addItem`, by `updateItem` and by the
submit button in every state; no SQL statement is issued, and the table, the
displayed list, the edit target and the typed text stay as they were. -/
theorem C3_blank_text_rejected (s : AppState) (raw : String)
    (hblank : ∀ c ∈ raw.data, isTrimChar c = true) :
    addItem (setText raw s) = (setText raw s, [emptyNameAlert]) ∧
    updateItem (setText raw s) = (setText raw s, [emptyNameAlert]) ∧
    submit raw s = (setText raw s, [emptyNameAlert]) ∧
    (submit raw s).1.db = s.db ∧ (submit raw s).1.editingItem = s.editingItem ∧
    (submit raw s).1.text = raw := by
  have ht : jsTrim raw = "" := jsTrim_of_blank raw hblank
  have hadd : addItem (setText raw s) = (setText raw s, [emptyNameAlert]) := by
    unfold addItem
    cases hdb : (setText raw s).db with
    | none => simp
    | some d => simp [setText, ht]
  have hupd : updateItem (setText raw s) = (setText raw s, [emptyNameAlert]) := by
    unfold updateItem
    cases hdb : (setText raw s).db with
    | none => simp
    | some d =>
      cases he : (setText raw s).editingItem with
      | none => simp
      | some e => simp [setText, ht]
  have hsub : submit raw s = (setText raw s, [emptyNameAlert]) := by
    unfold submit pressSubmit
    cases he : (setText raw s).editingItem with
    | none => simpa using hadd
    | some e => simpa using hupd
  refine ⟨hadd, hupd, hsub, ?_, ?_, ?_⟩ <;> rw [hsub] <;> rfl

theorem C3_blank_text_rejected_witness :
    submit " \t\n" (editItem ⟨1, "Up", 1⟩ (mount ⟨[⟨1, "Up"⟩], 1⟩)).1 =
      (setText " \t\n" (editItem ⟨1, "Up", 1⟩ (mount ⟨[⟨1, "Up"⟩], 1⟩)).1, [emptyNameAlert]) :=
  (C3_blank_text_rejected (editItem ⟨1, "Up", 1⟩ (mount ⟨[⟨1, "Up"⟩], 1⟩)).1 " \t\n"
    (by decide)).2.2.1

/-- C6: while an item is being edited, `confirmDeleteItem` only shows the
"Action Blocked" alert: no DELETE is issued, no confirmation prompt is shown,
and the whole state (table and session) is unchanged, whatever the id and
whatever the user would have answered. -/
theorem C6_delete_blocked_while_editing (s : AppState) (e : Item) (id : Nat) (answer : Answer)
    (hedit : s.editingItem = some e) :
    confirmDeleteItem id answer s = (s, [actionBlockedAlert]) ∧
    Effect.delete id ∉ (confirmDeleteItem id answer s).2 ∧
    confirmDeletePrompt ∉ (confirmDeleteItem id answer s).2 := by
  have h : confirmDeleteItem id answer s = (s, [actionBlockedAlert]) := by
    unfold confirmDeleteItem
    rw [hedit]
  refine ⟨h, ?_, ?_⟩ <;> rw [h] <;> simp [actionBlockedAlert, confirmDeletePrompt]

theorem C6_delete_blocked_while_editing_witness :
    confirmDeleteItem 1 Answer.delete (editItem ⟨1, "Up", 1⟩ (mount ⟨[⟨1, "Up"⟩], 1⟩)).1 =
      ((editItem ⟨1, "Up", 1⟩ (mount ⟨[⟨1, "Up"⟩], 1⟩)).1, [actionBlockedAlert]) :=
  (C6_delete_blocked_while_editing (editItem ⟨1, "Up", 1⟩ (mount ⟨[⟨1, "Up"⟩], 1⟩)).1
    ⟨1, "Up", 1⟩ 1 Answer.delete rfl).1

/-! ## Duplicate detection -/

theorem checkForDuplicate_iff (d : Database) (n : String) :
    checkForDuplicate d n = true ↔ ∃ r ∈ d.rows, r.name = n := by
  unfold checkForDuplicate Database.selectIdByName
  rw [decide_eq_true_iff, List.length_map, gt_iff_lt, List.length_pos_iff_exists_mem]
  constructor
  · rintro ⟨r, hr⟩
    rw [List.mem_filter] at hr
    exact ⟨r, hr.1, of_decide_eq_true hr.2⟩
  · rintro ⟨r, hr, hn⟩
    exact ⟨r, List.mem_filter.mpr ⟨hr, decide_eq_true hn⟩⟩

theorem checkForDuplicate_eq_false_iff (d : Database) (n : String) :
    checkForDuplicate d n = false ↔ ∀ r ∈ d.rows, r.name ≠ n := by
  rw [← Bool.not_eq_true, checkForDuplicate_iff]
  constructor
  · intro h r hr hn
    exact h ⟨r, hr, hn⟩
  · rintro h ⟨r, hr, hn⟩
    exact h r hr hn

/-- Duplicate rejection, given a non-empty trimmed text that equals the name of
a stored row: the button issues only the select-id-by-name query and the
duplicate alert, and the state stays as it was with the text as typed. -/
theorem duplicate_rejected (s : AppState) (d : Database) (raw : String)
    (hdb : s.db = some d) (hne : jsTrim raw ≠ "")
    (hdup : ∃ r ∈ d.rows, r.name = jsTrim raw) :
    (s.editingItem = none →
      addItem (setText raw s) =
        (setText raw s, [Effect.selectIdByName (jsTrim raw), duplicateAlert]) ∧
      submit raw s = (setText raw s, [Effect.selectIdByName (jsTrim raw), duplicateAlert])) ∧
    (∀ e, s.editingItem = some e → jsTrim raw ≠ e.name →
      updateItem (setText raw s) =
        (setText raw s, [Effect.selectIdByName (jsTrim raw), duplicateAlert]) ∧
      submit raw s = (setText raw s, [Effect.selectIdByName (jsTrim raw), duplicateAlert]) ∧
      (submit raw s).1.editingItem = some e ∧ (submit raw s).1.db = some d) := by
  have hc : checkForDuplicate d (jsTrim raw) = true := (checkForDuplicate_iff d _).mpr hdup
  constructor
  · intro hidle
    have hadd : addItem (setText raw s) =
        (setText raw s, [Effect.selectIdByName (jsTrim raw), duplicateAlert]) := by
      simp [addItem, setText, hdb, hne, hc]
    refine ⟨hadd, ?_⟩
    simpa [submit, pressSubmit, setText, hidle] using hadd
  · intro e he hdiff
    have hupd : updateItem (setText raw s) =
        (setText raw s, [Effect.selectIdByName (jsTrim raw), duplicateAlert]) := by
      simp [updateItem, setText, hdb, he, hne, hc, hdiff]
    have hsub : submit raw s =
        (setText raw s, [Effect.selectIdByName (jsTrim raw), duplicateAlert]) := by
      simpa [submit, pressSubmit, setText, he] using hupd
    refine ⟨hupd, hsub, ?_, ?_⟩
    · rw [hsub]; exact he
    · rw [hsub]; exact hdb

/-! ## Leaving edit mode -/

/-- C7: from a state in edit mode, one user action ends with no edit target
exactly when it is a submit whose trimmed text is not empty and is either the
target's own name or not the name of any row, on an open database; in that case
the UPDATE was issued and applied.  After any other action (a rejected submit,
an Edit press, a Delete press with either answer) a target is still set. -/
theorem C7_leave_editing_only_by_update (s : AppState) (e : Item) (op : Op)
    (hedit : s.editingItem = some e) :
    ((step s op).1.editingItem = none ↔
      ∃ raw d, op = Op.submit raw ∧ s.db = some d ∧ jsTrim raw ≠ "" ∧
        (jsTrim raw = e.name ∨ checkForDuplicate d (jsTrim raw) = false)) ∧
    ((step s op).1.editingItem = none →
      ∃ raw d, op = Op.submit raw ∧ s.db = some d ∧
        (step s op).1.db = some (d.update (jsTrim raw) e.id) ∧
        Effect.update (jsTrim raw) e.id ∈ (step s op).2 ∧
        emptyNameAlert ∉ (step s op).2 ∧ duplicateAlert ∉ (step s op).2) ∧
    ((step s op).1.editingItem ≠ none →
      (step s op).1.db = s.db ∧ ∀ n i, Effect.update n i ∉ (step s op).2) := by
  cases op with
  | beginEdit item =>
    simp [step, editItem]
  | requestDelete id answer =>
    simp [step, confirmDeleteItem, hedit, actionBlockedAlert]
  | submit raw =>
    cases hdb : s.db with
    | none =>
      simp [step, submit, pressSubmit, setText, updateItem, hedit, hdb, emptyNameAlert]
    | some d =>
      by_cases hne : jsTrim raw = ""
      · simp [step, submit, pressSubmit, setText, updateItem, hedit, hdb, hne, emptyNameAlert]
      · by_cases hsame : jsTrim raw = e.name
        · have hne2 : ¬ e.name = "" := fun h => hne (hsame.trans h)
          simp [step, submit, pressSubmit, setText, updateItem, hedit, hdb, hne2, hsame,
            fetchItems, emptyNameAlert, duplicateAlert]
        · cases hc : checkForDuplicate d (jsTrim raw) with
          | true =>
            simp [step, submit, pressSubmit, setText, updateItem, hedit, hdb, hne, hsame, hc,
              emptyNameAlert, duplicateAlert]
          | false =>
            simp [step, submit, pressSubmit, setText, updateItem, hedit, hdb, hne, hsame, hc,
              fetchItems, emptyNameAlert, duplicateAlert]

theorem C7_leave_editing_only_by_update_witness :
    ∃ raw d, Op.submit "Heat" = Op.submit raw ∧
      (editItem ⟨1, "Up", 1⟩ (mount ⟨[⟨1, "Up"⟩], 1⟩)).1.db = some d ∧
      (step (editItem ⟨1, "Up", 1⟩ (mount ⟨[⟨1, "Up"⟩], 1⟩)).1 (Op.submit "Heat")).1.db =
        some (d.update (jsTrim raw) (⟨1, "Up", 1⟩ : Item).id) ∧
      Effect.update (jsTrim raw) (⟨1, "Up", 1⟩ : Item).id ∈
        (step (editItem ⟨1, "Up", 1⟩ (mount ⟨[⟨1, "Up"⟩], 1⟩)).1 (Op.submit "Heat")).2 ∧
      emptyNameAlert ∉
        (step (editItem ⟨1, "Up", 1⟩ (mount ⟨[⟨1, "Up"⟩], 1⟩)).1 (Op.submit "Heat")).2 ∧
      duplicateAlert ∉
        (step (editItem ⟨1, "Up", 1⟩ (mount ⟨[⟨1, "Up"⟩], 1⟩)).1 (Op.submit "Heat")).2 :=
  (C7_leave_editing_only_by_update (editItem ⟨1, "Up", 1⟩ (mount ⟨[⟨1, "Up"⟩], 1⟩)).1
      ⟨1, "Up", 1⟩ (Op.submit "Heat") rfl).2.1 (by decide)

/-! ## Store level facts -/

theorem le_maxId (rows : List Row) : ∀ r ∈ rows, r.id ≤ maxId rows := by
  induction rows with
  | nil => intro r hr; cases hr
  | cons a rs ih =>
    intro r hr
    rcases List.mem_cons.mp hr with h | h
    · subst h; exact le_max_left _ _
    · exact le_trans (ih r h) (le_max_right _ _)

theorem lt_nextId (d : Database) : ∀ r ∈ d.rows, r.id < d.nextId := by
  intro r hr
  have h1 := le_maxId d.rows r hr
  have h2 : maxId d.rows ≤ max d.seq (maxId d.rows) := le_max_right _ _
  unfold Database.nextId
  omega

theorem delete_insert_rows (d : Database) (n : String) :
    ((d.insert n).delete d.nextId).rows = d.rows := by
  have hall : ∀ r ∈ d.rows, decide (r.id ≠ d.nextId) = true := by
    intro r hr
    exact decide_eq_true (Nat.ne_of_lt (lt_nextId d r hr))
  simp only [Database.insert, Database.delete, List.filter_append]
  rw [List.filter_eq_self.mpr hall]
  simp

/-- Store level: the name exists right after the INSERT, the inserted row has an
id no other row has, and the DELETE of that id gives back the rows from before
the INSERT. -/
theorem insert_then_delete (d : Database) (n : String) :
    checkForDuplicate (d.insert n) n = true ∧
    (d.insert n).rows = d.rows ++ [⟨d.nextId, n⟩] ∧
    (∀ r ∈ d.rows, r.id ≠ d.nextId) ∧
    ((d.insert n).delete d.nextId).rows = d.rows ∧
    checkForDuplicate ((d.insert n).delete d.nextId) n = checkForDuplicate d n ∧
    ((∀ r ∈ d.rows, r.name ≠ n) →
      checkForDuplicate ((d.insert n).delete d.nextId) n = false) := by
  have hrows := delete_insert_rows d n
  have hsame : checkForDuplicate ((d.insert n).delete d.nextId) n = checkForDuplicate d n := by
    unfold checkForDuplicate Database.selectIdByName
    rw [hrows]
  refine ⟨?_, rfl, ?_, hrows, hsame, ?_⟩
  · rw [checkForDuplicate_iff]
    exact ⟨⟨d.nextId, n⟩, by simp [Database.insert], rfl⟩
  · intro r hr
    exact Nat.ne_of_lt (lt_nextId d r hr)
  · intro hfresh
    rw [hsame]
    exact (checkForDuplicate_eq_false_iff d n).mpr hfresh

/-! ## Updating a name -/

theorem map_id_update (rows : List Row) (t : String) (id : Nat) :
    (rows.map (fun r => if r.id = id then { r with name := t } else r)).map Row.id =
      rows.map Row.id := by
  induction rows with
  | nil => rfl
  | cons r rs ih =>
    simp only [List.map_cons, ih]
    by_cases h : r.id = id <;> simp [h]

theorem eq_of_id_eq (rows : List Row) (hids : (rows.map Row.id).Nodup) (a b : Row)
    (ha : a ∈ rows) (hb : b ∈ rows) (h : a.id = b.id) : a = b := by
  induction rows with
  | nil => cases ha
  | cons r rs ih =>
    rw [List.map_cons, List.nodup_cons] at hids
    rcases List.mem_cons.mp ha with ha1 | ha1 <;> rcases List.mem_cons.mp hb with hb1 | hb1
    · rw [ha1, hb1]
    · exact absurd (List.mem_map.mpr ⟨b, hb1, by rw [← h, ha1]⟩) hids.1
    · exact absurd (List.mem_map.mpr ⟨a, ha1, by rw [h, hb1]⟩) hids.1
    · exact ih hids.2 ha1 hb1

theorem update_own_name (d : Database) (hids : (d.rows.map Row.id).Nodup) (x : Row)
    (hx : x ∈ d.rows) : d.update x.name x.id = d := by
  have hmap : d.rows.map (fun r => if r.id = x.id then { r with name := x.name } else r) =
      d.rows := by
    conv_rhs => rw [← List.map_id d.rows]
    apply List.map_congr_left
    intro r hr
    by_cases h : r.id = x.id
    · have hrx : r = x := eq_of_id_eq d.rows hids r x hr hx h
      subst hrx
      simp
    · simp [h]
  cases d with
  | mk rows seq => simpa [Database.update] using hmap

theorem countP_changed_zero (rows : List Row) (t : String) (id : Nat)
    (hno : ∀ r ∈ rows, r.id ≠ id) :
    (List.zip rows (rows.map (fun r => if r.id = id then { r with name := t } else r))).countP
      (fun p => decide (p.1.name ≠ p.2.name)) = 0 := by
  induction rows with
  | nil => rfl
  | cons r rs ih =>
    have hr : r.id ≠ id := hno r (List.mem_cons_self r rs)
    have ih2 := ih (fun x hx => hno x (List.mem_cons_of_mem r hx))
    simp only [List.map_cons, List.zip_cons_cons, List.countP_cons, ih2, if_neg hr]
    simp

theorem countP_changed_one (rows : List Row) (t : String) (x : Row)
    (hids : (rows.map Row.id).Nodup) (hx : x ∈ rows) (hne : x.name ≠ t) :
    (List.zip rows (rows.map (fun r => if r.id = x.id then { r with name := t } else r))).countP
      (fun p => decide (p.1.name ≠ p.2.name)) = 1 := by
  induction rows with
  | nil => cases hx
  | cons r rs ih =>
    rw [List.map_cons, List.nodup_cons] at hids
    rcases List.mem_cons.mp hx with h | h
    · subst h
      have hno : ∀ y ∈ rs, y.id ≠ x.id := by
        intro y hy hyx
        exact hids.1 (List.mem_map.mpr ⟨y, hy, hyx⟩)
      simp only [List.map_cons, List.zip_cons_cons, List.countP_cons,
        countP_changed_zero rs t x.id hno, if_true]
      simp [hne]
    · have hr : r.id ≠ x.id := by
        intro hrx
        exact hids.1 (List.mem_map.mpr ⟨x, h, hrx.symm⟩)
      simp only [List.map_cons, List.zip_cons_cons, List.countP_cons, ih hids.2 h, if_neg hr]
      simp

/-- C4: in edit mode on a table with pairwise distinct ids, with the target a
row of the table, a submit whose trimmed text `t` is non-empty, differs from
the target's name and is the name of no row yields a table with the same ids
in the same order in which every row has its old name except the target's row,
which is named `t`: exactly one position differs in its name.  The session
ends with no target and an empty text, and the displayed list is rebuilt from
the new table. -/
theorem C4_update_changes_one_name (s : AppState) (d : Database) (e : Item) (raw : String)
    (hdb : s.db = some d) (hedit : s.editingItem = some e)
    (hids : (d.rows.map Row.id).Nodup) (hmem : e.toRow ∈ d.rows)
    (hne : jsTrim raw ≠ "") (hdiff : jsTrim raw ≠ e.name)
    (hfresh : ∀ r ∈ d.rows, r.name ≠ jsTrim raw) :
    ∃ d2 : Database, (submit raw s).1.db = some d2 ∧
      d2.rows.map Row.id = d.rows.map Row.id ∧
      List.Forall₂ (fun r r2 => r2.id = r.id ∧
        r2.name = if r.id = e.id then jsTrim raw else r.name) d.rows d2.rows ∧
      (⟨e.id, jsTrim raw⟩ : Row) ∈ d2.rows ∧
      (∀ r ∈ d.rows, r.id ≠ e.id → r ∈ d2.rows) ∧
      (List.zip d.rows d2.rows).countP (fun p => decide (p.1.name ≠ p.2.name)) = 1 ∧
      (submit raw s).1.editingItem = none ∧ (submit raw s).1.text = "" ∧
      (submit raw s).1.items = toItems d2.rows ∧
      (submit raw s).2 =
        [Effect.selectIdByName (jsTrim raw), Effect.update (jsTrim raw) e.id, Effect.selectAll] := by
  have hc : checkForDuplicate d (jsTrim raw) = false :=
    (checkForDuplicate_eq_false_iff d _).mpr hfresh
  have hsub : submit raw s =
      ({ db := some (d.update (jsTrim raw) e.id), text := "",
         items := toItems (d.update (jsTrim raw) e.id).rows, editingItem := none },
       [Effect.selectIdByName (jsTrim raw), Effect.update (jsTrim raw) e.id,
        Effect.selectAll]) := by
    simp [submit, pressSubmit, setText, updateItem, hedit, hdb, hne, hdiff, hc, fetchItems,
      Database.selectAll]
  refine ⟨d.update (jsTrim raw) e.id, by rw [hsub], ?_, ?_, ?_, ?_, ?_, by rw [hsub],
    by rw [hsub], by rw [hsub], by rw [hsub]⟩
  · exact map_id_update d.rows _ _
  · simp only [Database.update]
    rw [List.forall₂_map_right_iff]
    apply List.forall₂_same.mpr
    intro r _
    by_cases h : r.id = e.id <;> simp [h]
  · simp only [Database.update]
    refine List.mem_map.mpr ⟨e.toRow, hmem, ?_⟩
    simp [Item.toRow]
  · intro r hr hre
    simp only [Database.update]
    exact List.mem_map.mpr ⟨r, hr, by simp [hre]⟩
  · have h1 := countP_changed_one d.rows (jsTrim raw) e.toRow hids hmem
      (by simpa [Item.toRow] using (Ne.symm hdiff))
    simpa [Database.update, Item.toRow] using h1

theorem C4_update_changes_one_name_witness :
    ∃ d2 : Database,
      (submit " Heat " (editItem ⟨2, "Up", 2⟩ (mount ⟨[⟨1, "Jaws"⟩, ⟨2, "Up"⟩], 2⟩)).1).1.db =
        some d2 ∧
      d2.rows.map Row.id = (⟨[⟨1, "Jaws"⟩, ⟨2, "Up"⟩], 2⟩ : Database).rows.map Row.id ∧
      (⟨2, jsTrim " Heat "⟩ : Row) ∈ d2.rows :=
  match C4_update_changes_one_name (editItem ⟨2, "Up", 2⟩ (mount ⟨[⟨1, "Jaws"⟩, ⟨2, "Up"⟩], 2⟩)).1
      ⟨[⟨1, "Jaws"⟩, ⟨2, "Up"⟩], 2⟩ ⟨2, "Up", 2⟩ " Heat " rfl rfl (by decide) (by decide)
      (by decide) (by decide) (by decide) with
  | ⟨d2, h1, h2, _, h4, _⟩ => ⟨d2, h1, h2, h4⟩

/-! ## Resubmitting the target's own name -/

/-- Resubmitting the target's own name on a table with pairwise distinct ids,
for a row whose name is not empty. -/
theorem resubmit_own_name (s : AppState) (d : Database) (x : Row) (idx : Nat) (raw : String)
    (hdb : s.db = some d) (hids : (d.rows.map Row.id).Nodup) (hx : x ∈ d.rows)
    (hne : x.name ≠ "") (hraw : jsTrim raw = x.name) :
    (editItem ⟨x.id, x.name, idx⟩ s).1.text = x.name ∧
    (editItem ⟨x.id, x.name, idx⟩ s).1.editingItem = some ⟨x.id, x.name, idx⟩ ∧
    d.update x.name x.id = d ∧
    submit raw (editItem ⟨x.id, x.name, idx⟩ s).1 =
      ({ db := some d, text := "", items := toItems d.rows, editingItem := none },
       [Effect.update x.name x.id, Effect.selectAll]) ∧
    (jsTrim x.name = x.name →
      pressSubmit (editItem ⟨x.id, x.name, idx⟩ s).1 =
        ({ db := some d, text := "", items := toItems d.rows, editingItem := none },
         [Effect.update x.name x.id, Effect.selectAll])) := by
  have hupd : d.update x.name x.id = d := update_own_name d hids x hx
  have key : ∀ t : String, jsTrim t = x.name →
      pressSubmit { db := s.db, text := t, items := s.items,
                    editingItem := some ⟨x.id, x.name, idx⟩ } =
        ({ db := some d, text := "", items := toItems d.rows, editingItem := none },
         [Effect.update x.name x.id, Effect.selectAll]) := by
    intro t ht
    simp [pressSubmit, updateItem, hdb, ht, hne, fetchItems, Database.selectAll, hupd]
  refine ⟨rfl, rfl, hupd, ?_, ?_⟩
  · exact key raw hraw
  · intro htrim
    exact key x.name htrim

/-! ## The end-to-end scenario -/

/-- C10: from the freshly mounted empty table, submitting "Inception" stores
row 1; submitting it again shows the duplicate alert and changes nothing but
the typed text; pressing Edit on the displayed row and submitting
"Interstellar" renames row 1 and leaves edit mode; confirming the deletion of
id 1 empties the table. -/
theorem C10_scenario :
    initialState = { db := some ⟨[], 0⟩, text := "", items := [], editingItem := none } ∧
    (step initialState (Op.submit "Inception")).1 = scenario1 ∧
    scenario1.db = some ⟨[⟨1, "Inception"⟩], 1⟩ ∧
    scenario1.items = [⟨1, "Inception", 1⟩] ∧ scenario1.editingItem = none ∧
    step scenario1 (Op.submit "Inception") =
      (setText "Inception" scenario1, [Effect.selectIdByName "Inception", duplicateAlert]) ∧
    enabled (setText "Inception" scenario1) (Op.beginEdit ⟨1, "Inception", 1⟩) = true ∧
    (step (step (setText "Inception" scenario1) (Op.beginEdit ⟨1, "Inception", 1⟩)).1
        (Op.submit "Interstellar")).1 = scenario3 ∧
    scenario3.db = some ⟨[⟨1, "Interstellar"⟩], 1⟩ ∧
    scenario3.editingItem = none ∧ scenario3.text = "" ∧
    (step scenario3 (Op.requestDelete 1 Answer.delete)).1.db = some ⟨[], 1⟩ ∧
    (step scenario3 (Op.requestDelete 1 Answer.delete)).1.items = [] ∧
    run initialState [Op.submit "Inception", Op.submit "Inception",
      Op.beginEdit ⟨1, "Inception", 1⟩, Op.submit "Interstellar",
      Op.requestDelete 1 Answer.delete] =
      some { db := some ⟨[], 1⟩, text := "", items := [], editingItem := none } := by
  decide

/-! ## The displayed list -/

theorem toItemsFrom_map_name (rows : List Row) :
    ∀ k, (toItemsFrom k rows).map Item.name = rows.map Row.name := by
  induction rows with
  | nil => intro k; rfl
  | cons r rs ih => intro k; simp [toItemsFrom, ih]

theorem toItemsFrom_map_id (rows : List Row) :
    ∀ k, (toItemsFrom k rows).map Item.id = rows.map Row.id := by
  induction rows with
  | nil => intro k; rfl
  | cons r rs ih => intro k; simp [toItemsFrom, ih]

theorem toItemsFrom_map_index (rows : List Row) :
    ∀ k, (toItemsFrom k rows).map Item.index = List.range' (k + 1) rows.length := by
  induction rows with
  | nil => intro k; rfl
  | cons r rs ih => intro k; simp [toItemsFrom, ih, List.range'_succ]

theorem toRow_mem_of_mem_toItemsFrom (rows : List Row) :
    ∀ k (i : Item), i ∈ toItemsFrom k rows → i.toRow ∈ rows := by
  induction rows with
  | nil => intro k i hi; cases hi
  | cons r rs ih =>
    intro k i hi
    simp only [toItemsFrom, List.mem_cons] at hi
    rcases hi with h | h
    · subst h
      exact List.mem_cons_self _ _
    · exact List.mem_cons_of_mem _ (ih (k + 1) i h)

theorem rowsFrom_map_name (names : List String) :
    ∀ k, (rowsFrom k names).map Row.name = names := by
  induction names with
  | nil => intro k; rfl
  | cons n ns ih => intro k; simp [rowsFrom, ih]

theorem rowsFrom_map_id (names : List String) :
    ∀ k, (rowsFrom k names).map Row.id = List.range' (k + 1) names.length := by
  induction names with
  | nil => intro k; rfl
  | cons n ns ih => intro k; simp [rowsFrom, ih, List.range'_succ]

/-! ## Creating a sequence of names -/

theorem maxId_append_singleton (rows : List Row) (r : Row) :
    maxId (rows ++ [r]) = max (maxId rows) r.id := by
  induction rows with
  | nil => simp [maxId]
  | cons a rs ih => simp [maxId, ih, max_assoc]

theorem highWater_insert (d : Database) (n : String) :
    max (d.insert n).seq (maxId (d.insert n).rows) = max d.seq (maxId d.rows) + 1 := by
  simp only [Database.insert, maxId_append_singleton, Database.nextId]
  have h : maxId d.rows ≤ max d.seq (maxId d.rows) := le_max_right _ _
  omega

theorem submit_create (s : AppState) (d : Database) (raw : String)
    (hdb : s.db = some d) (hidle : s.editingItem = none) (hne : jsTrim raw ≠ "")
    (hfresh : ∀ r ∈ d.rows, r.name ≠ jsTrim raw) :
    submit raw s =
      ({ db := some (d.insert (jsTrim raw)), text := "",
         items := toItems (d.insert (jsTrim raw)).rows, editingItem := none },
       [Effect.selectIdByName (jsTrim raw), Effect.insert (jsTrim raw), Effect.selectAll]) := by
  have hc : checkForDuplicate d (jsTrim raw) = false :=
    (checkForDuplicate_eq_false_iff d _).mpr hfresh
  simp [submit, pressSubmit, setText, addItem, hidle, hdb, hne, hc, fetchItems,
    Database.selectAll]

theorem createAll_rows (names : List String) :
    ∀ (s : AppState) (d : Database), s.db = some d → s.editingItem = none →
      s.items = toItems d.rows → names.Nodup →
      (∀ n ∈ names, n ≠ "" ∧ jsTrim n = n) →
      (∀ n ∈ names, ∀ r ∈ d.rows, r.name ≠ n) →
      ∃ d2 : Database, (createAll names s).db = some d2 ∧
        d2.rows = d.rows ++ rowsFrom (max d.seq (maxId d.rows)) names ∧
        (createAll names s).items = toItems d2.rows ∧
        (createAll names s).editingItem = none := by
  induction names with
  | nil =>
    intro s d hdb hidle hitems _ _ _
    exact ⟨d, hdb, by simp [rowsFrom], hitems, hidle⟩
  | cons n ns ih =>
    intro s d hdb hidle hitems hnodup hok hfresh
    rw [List.nodup_cons] at hnodup
    have hn := hok n (List.mem_cons_self n ns)
    have hfr : ∀ r ∈ d.rows, r.name ≠ jsTrim n := by
      rw [hn.2]
      exact hfresh n (List.mem_cons_self n ns)
    have hsub := submit_create s d n hdb hidle (by rw [hn.2]; exact hn.1) hfr
    rw [hn.2] at hsub
    have hfresh2 : ∀ m ∈ ns, ∀ r ∈ (d.insert n).rows, r.name ≠ m := by
      intro m hm r hr
      simp only [Database.insert, List.mem_append, List.mem_singleton] at hr
      rcases hr with h | h
      · exact hfresh m (List.mem_cons_of_mem n hm) r h
      · subst h
        intro hnm
        have hnm2 : n = m := hnm
        exact hnodup.1 (hnm2 ▸ hm)
    obtain ⟨d2, h1, h2, h3, h4⟩ := ih (submit n s).1 (d.insert n) (by rw [hsub]) (by rw [hsub])
      (by rw [hsub]) hnodup.2 (fun m hm => hok m (List.mem_cons_of_mem n hm)) hfresh2
    refine ⟨d2, h1, ?_, h3, h4⟩
    rw [h2, highWater_insert]
    simp [Database.insert, rowsFrom, Database.nextId]

/-- C9: for pairwise distinct names that are non-empty and already trimmed,
submitting them one by one in create mode on a freshly mounted empty table
(whatever its AUTOINCREMENT mark `k`) leaves a table with exactly one row per
name, in submission order, with the consecutive ids `k + 1 ..`, hence pairwise
distinct; the displayed list is what `fetchItems` builds from it (fetching again
returns the same list): its names are the submitted names in order, its ids are
pairwise distinct and its positions are `1 .. n`. -/
theorem C9_create_distinct_names (k : Nat) (names : List String) (hnodup : names.Nodup)
    (hok : ∀ n ∈ names, n ≠ "" ∧ jsTrim n = n) :
    (createAll names (mount ⟨[], k⟩)).db.map Database.rows = some (rowsFrom k names) ∧
    (fetchItems (createAll names (mount ⟨[], k⟩))).1.items =
      (createAll names (mount ⟨[], k⟩)).items ∧
    (createAll names (mount ⟨[], k⟩)).items = toItems (rowsFrom k names) ∧
    (createAll names (mount ⟨[], k⟩)).items.length = names.length ∧
    (createAll names (mount ⟨[], k⟩)).items.map Item.name = names ∧
    (createAll names (mount ⟨[], k⟩)).items.map Item.id = List.range' (k + 1) names.length ∧
    ((createAll names (mount ⟨[], k⟩)).items.map Item.id).Nodup ∧
    (createAll names (mount ⟨[], k⟩)).items.map Item.index = List.range' 1 names.length := by
  obtain ⟨d2, h1, h2, h3, _⟩ := createAll_rows names (mount ⟨[], k⟩) ⟨[], k⟩ rfl rfl rfl hnodup hok
    (fun _ _ r hr => by cases hr)
  have hrows : d2.rows = rowsFrom k names := by
    rw [h2]
    simp [maxId]
  rw [hrows] at h3
  have hlen : (rowsFrom k names).length = names.length := by
    have := congrArg List.length (rowsFrom_map_name names k)
    simpa using this
  have hid : (createAll names (mount ⟨[], k⟩)).items.map Item.id =
      List.range' (k + 1) names.length := by
    rw [h3, toItems, toItemsFrom_map_id, rowsFrom_map_id]
  refine ⟨?_, ?_, h3, ?_, ?_, hid, ?_, ?_⟩
  · rw [h1, Option.map_some', hrows]
  · simp only [fetchItems, h1, Database.selectAll, hrows, h3]
  · have := congrArg List.length hid
    simpa using this
  · rw [h3, toItems, toItemsFrom_map_name, rowsFrom_map_name]
  · rw [hid]
    exact List.nodup_range' _ _
  · rw [h3, toItems, toItemsFrom_map_index, hlen]

theorem C9_create_distinct_names_witness :
    (createAll ["Up", "Jaws", "Heat"] (mount ⟨[], 0⟩)).items.map Item.name =
      ["Up", "Jaws", "Heat"] :=
  (C9_create_distinct_names 0 ["Up", "Jaws", "Heat"] (by decide) (by decide)).2.2.2.2.1

/-! ## Trimming twice -/

theorem dropWhile_head_false (p : Char → Bool) (l : List Char) :
    ∀ a t, l.dropWhile p = a :: t → p a = false := by
  induction l with
  | nil => intro a t h; cases h
  | cons c cs ih =>
    intro a t h
    cases hc : p c with
    | true =>
      simp only [List.dropWhile_cons, hc, if_true] at h
      exact ih a t h
    | false =>
      simp only [List.dropWhile_cons, hc] at h
      cases h
      exact hc

theorem dropWhile_cons_of_false (p : Char → Bool) (a : Char) (t : List Char)
    (h : p a = false) : (a :: t).dropWhile p = a :: t := by
  simp [List.dropWhile_cons, h]

theorem trimChars_idem (cs : List Char) : trimChars (trimChars cs) = trimChars cs := by
  unfold trimChars
  generalize hl : cs.dropWhile isTrimChar = l
  generalize hm : l.reverse.dropWhile isTrimChar = m
  cases m with
  | nil => rfl
  | cons b m2 =>
    have hb : isTrimChar b = false := dropWhile_head_false isTrimChar l.reverse b m2 hm
    have hsplit : l.reverse.takeWhile isTrimChar ++ (b :: m2) = l.reverse := by
      rw [← hm]
      exact List.takeWhile_append_dropWhile isTrimChar l.reverse
    have hl2 : l = (b :: m2).reverse ++ (l.reverse.takeWhile isTrimChar).reverse := by
      have h := congrArg List.reverse hsplit
      rw [List.reverse_append, List.reverse_reverse] at h
      exact h.symm
    cases hr : (b :: m2).reverse with
    | nil => simp at hr
    | cons a u =>
      rw [hr, List.cons_append] at hl2
      have ha : isTrimChar a = false :=
        dropWhile_head_false isTrimChar cs a _ (hl.trans hl2)
      rw [dropWhile_cons_of_false isTrimChar a u ha, ← hr, List.reverse_reverse,
        dropWhile_cons_of_false isTrimChar b m2 hb]

theorem jsTrim_idem (raw : String) : jsTrim (jsTrim raw) = jsTrim raw := by
  unfold jsTrim
  rw [trimChars_idem]

/-! ## Name uniqueness along every run -/

theorem names_nodup_update (rows : List Row) (t : String) (id : Nat)
    (hids : (rows.map Row.id).Nodup) (hnames : (rows.map Row.name).Nodup)
    (hfresh : ∀ r ∈ rows, r.name ≠ t) :
    ((rows.map (fun r => if r.id = id then { r with name := t } else r)).map Row.name).Nodup := by
  induction rows with
  | nil => exact List.nodup_nil
  | cons r rs ih =>
    rw [List.map_cons, List.nodup_cons] at hids hnames
    have ih2 := ih hids.2 hnames.2 (fun x hx => hfresh x (List.mem_cons_of_mem r hx))
    rw [List.map_cons, List.map_cons, List.nodup_cons]
    refine ⟨?_, ih2⟩
    intro hmem
    rw [List.mem_map] at hmem
    obtain ⟨y, hy, hyn⟩ := hmem
    rw [List.mem_map] at hy
    obtain ⟨x, hx, hxy⟩ := hy
    by_cases hr : r.id = id
    · by_cases hxid : x.id = id
      · exact hids.1 (List.mem_map.mpr ⟨x, hx, hxid.trans hr.symm⟩)
      · rw [if_neg hxid] at hxy
        subst hxy
        rw [if_pos hr] at hyn
        exact hfresh x (List.mem_cons_of_mem r hx) hyn
    · rw [if_neg hr] at hyn
      by_cases hxid : x.id = id
      · rw [if_pos hxid] at hxy
        subst hxy
        exact hfresh r (List.mem_cons_self r rs) hyn.symm
      · rw [if_neg hxid] at hxy
        subst hxy
        exact hnames.1 (List.mem_map.mpr ⟨x, hx, hyn⟩)

theorem mount_consistent (k : Nat) : Consistent (mount ⟨[], k⟩) ⟨[], k⟩ where
  db_eq := rfl
  ids_nodup := List.nodup_nil
  names_nodup := List.nodup_nil
  names_trimmed := fun r hr => by cases hr
  items_eq := rfl
  target_mem := fun e he => by cases he

theorem consistent_setText {s : AppState} {d : Database} (h : Consistent s d) (t : String) :
    Consistent (setText t s) d where
  db_eq := h.db_eq
  ids_nodup := h.ids_nodup
  names_nodup := h.names_nodup
  names_trimmed := h.names_trimmed
  items_eq := h.items_eq
  target_mem := h.target_mem

theorem consistent_insert {s : AppState} {d : Database} (h : Consistent s d) (raw : String)
    (hne : jsTrim raw ≠ "") (hfresh : ∀ r ∈ d.rows, r.name ≠ jsTrim raw) :
    Consistent { db := some (d.insert (jsTrim raw)), text := "",
                 items := toItems (d.insert (jsTrim raw)).rows, editingItem := none }
      (d.insert (jsTrim raw)) where
  db_eq := rfl
  ids_nodup := by
    simp only [Database.insert, List.map_append, List.map_cons, List.map_nil]
    refine List.Nodup.append h.ids_nodup (List.nodup_singleton _) ?_
    intro a ha hb
    rw [List.mem_singleton] at hb
    rw [List.mem_map] at ha
    obtain ⟨r, hr, hra⟩ := ha
    exact Nat.ne_of_lt (lt_nextId d r hr) (hra.trans hb)
  names_nodup := by
    simp only [Database.insert, List.map_append, List.map_cons, List.map_nil]
    refine List.Nodup.append h.names_nodup (List.nodup_singleton _) ?_
    intro a ha hb
    rw [List.mem_singleton] at hb
    rw [List.mem_map] at ha
    obtain ⟨r, hr, hra⟩ := ha
    exact hfresh r hr (hra.trans hb)
  names_trimmed := by
    intro r hr
    simp only [Database.insert, List.mem_append, List.mem_singleton] at hr
    rcases hr with hr | hr
    · exact h.names_trimmed r hr
    · subst hr
      exact ⟨hne, jsTrim_idem raw⟩
  items_eq := rfl
  target_mem := fun e he => by cases he

theorem consistent_update {s : AppState} {d : Database} (h : Consistent s d) (raw : String)
    (id : Nat) (hne : jsTrim raw ≠ "") (hfresh : ∀ r ∈ d.rows, r.name ≠ jsTrim raw) :
    Consistent { db := some (d.update (jsTrim raw) id), text := "",
                 items := toItems (d.update (jsTrim raw) id).rows, editingItem := none }
      (d.update (jsTrim raw) id) where
  db_eq := rfl
  ids_nodup := by
    simp only [Database.update]
    rw [map_id_update]
    exact h.ids_nodup
  names_nodup := names_nodup_update d.rows _ id h.ids_nodup h.names_nodup hfresh
  names_trimmed := by
    intro r hr
    simp only [Database.update, List.mem_map] at hr
    obtain ⟨x, hx, hxr⟩ := hr
    by_cases hxid : x.id = id
    · rw [if_pos hxid] at hxr
      subst hxr
      exact ⟨hne, jsTrim_idem raw⟩
    · rw [if_neg hxid] at hxr
      subst hxr
      exact h.names_trimmed x hx
  items_eq := rfl
  target_mem := fun e he => by cases he

theorem consistent_delete {s : AppState} {d : Database} (h : Consistent s d) (id : Nat) :
    Consistent { db := some (d.delete id), text := s.text,
                 items := toItems (d.delete id).rows, editingItem := none } (d.delete id) where
  db_eq := rfl
  ids_nodup :=
    List.Nodup.sublist (List.Sublist.map Row.id (List.filter_sublist d.rows)) h.ids_nodup
  names_nodup :=
    List.Nodup.sublist (List.Sublist.map Row.name (List.filter_sublist d.rows)) h.names_nodup
  names_trimmed := fun r hr => h.names_trimmed r (List.mem_of_mem_filter hr)
  items_eq := rfl
  target_mem := fun e he => by cases he

theorem step_consistent (s : AppState) (d : Database) (op : Op) (h : Consistent s d)
    (hen : enabled s op = true) : ∃ d2, Consistent (step s op).1 d2 := by
  cases op with
  | beginEdit item =>
    have hmem : item ∈ s.items := of_decide_eq_true hen
    rw [h.items_eq] at hmem
    refine ⟨d, ?_⟩
    exact {
      db_eq := h.db_eq
      ids_nodup := h.ids_nodup
      names_nodup := h.names_nodup
      names_trimmed := h.names_trimmed
      items_eq := h.items_eq
      target_mem := fun e he => by
        have he2 : item = e := Option.some.inj he
        subst he2
        exact toRow_mem_of_mem_toItemsFrom d.rows 0 item hmem }
  | requestDelete id answer =>
    cases he : s.editingItem with
    | some e =>
      refine ⟨d, ?_⟩
      simpa [step, confirmDeleteItem, he] using h
    | none =>
      cases answer with
      | cancel =>
        refine ⟨d, ?_⟩
        simpa [step, confirmDeleteItem, he] using h
      | delete =>
        refine ⟨d.delete id, ?_⟩
        simpa [step, confirmDeleteItem, he, h.db_eq, fetchItems, Database.selectAll]
          using consistent_delete h id
  | submit raw =>
    have hs := consistent_setText h raw
    by_cases hne : jsTrim raw = ""
    · refine ⟨d, ?_⟩
      have hb : submit raw s = (setText raw s, [emptyNameAlert]) := by
        cases he : s.editingItem with
        | none => simp [submit, pressSubmit, setText, addItem, he, h.db_eq, hne]
        | some e => simp [submit, pressSubmit, setText, updateItem, he, h.db_eq, hne]
      simpa [step, hb] using hs
    · cases he : s.editingItem with
      | none =>
        cases hc : checkForDuplicate d (jsTrim raw) with
        | true =>
          refine ⟨d, ?_⟩
          have hb : (submit raw s).1 = setText raw s := by
            simp [submit, pressSubmit, setText, addItem, he, h.db_eq, hne, hc]
          simpa [step, hb] using hs
        | false =>
          have hfresh := (checkForDuplicate_eq_false_iff d _).mp hc
          refine ⟨d.insert (jsTrim raw), ?_⟩
          have hb := submit_create s d raw h.db_eq he hne hfresh
          simpa [step, hb] using consistent_insert h raw hne hfresh
      | some e =>
        by_cases hsame : jsTrim raw = e.name
        · refine ⟨d, ?_⟩
          have hmem : e.toRow ∈ d.rows := h.target_mem e he
          have hupd : d.update e.name e.id = d :=
            update_own_name d h.ids_nodup e.toRow hmem
          have hne2 : ¬ e.name = "" := fun h0 => hne (hsame.trans h0)
          have hb : (submit raw s).1 =
              { db := some d, text := "", items := toItems d.rows, editingItem := none } := by
            simp [submit, pressSubmit, setText, updateItem, he, h.db_eq, hne2, hsame, fetchItems,
              Database.selectAll, hupd]
          rw [step, hb]
          exact {
            db_eq := rfl
            ids_nodup := h.ids_nodup
            names_nodup := h.names_nodup
            names_trimmed := h.names_trimmed
            items_eq := rfl
            target_mem := fun e2 he2 => by cases he2 }
        · cases hc : checkForDuplicate d (jsTrim raw) with
          | true =>
            refine ⟨d, ?_⟩
            have hb : (submit raw s).1 = setText raw s := by
              simp [submit, pressSubmit, setText, updateItem, he, h.db_eq, hne, hsame, hc]
            simpa [step, hb] using hs
          | false =>
            have hfresh := (checkForDuplicate_eq_false_iff d _).mp hc
            refine ⟨d.update (jsTrim raw) e.id, ?_⟩
            have hb : (submit raw s).1 =
                { db := some (d.update (jsTrim raw) e.id), text := "",
                  items := toItems (d.update (jsTrim raw) e.id).rows, editingItem := none } := by
              simp [submit, pressSubmit, setText, updateItem, he, h.db_eq, hne, hsame, hc,
                fetchItems, Database.selectAll]
            rw [step, hb]
            exact consistent_update h raw e.id hne hfresh

theorem run_consistent (ops : List Op) :
    ∀ (s : AppState) (d : Database), Consistent s d → ∀ s2, run s ops = some s2 →
      ∃ d2, Consistent s2 d2 := by
  induction ops with
  | nil =>
    intro s d h s2 hrun
    have hs : s = s2 := Option.some.inj hrun
    subst hs
    exact ⟨d, h⟩
  | cons op ops ih =>
    intro s d h s2 hrun
    cases hen : enabled s op with
    | false => simp [run, hen] at hrun
    | true =>
      simp only [run, hen, if_true] at hrun
      obtain ⟨d1, h1⟩ := step_consistent s d op h hen
      exact ih _ d1 h1 s2 hrun

/-- When no two handlers overlap: starting from the freshly mounted empty table,
after any sequence of user actions each run to completion, the database is
open, no two rows have the same name, and the table and the session agree. -/
theorem run_names_unique (k : Nat) (ops : List Op) (s : AppState)
    (hrun : run (mount ⟨[], k⟩) ops = some s) :
    ∃ d : Database, s.db = some d ∧
      List.Pairwise (fun a b => a.name ≠ b.name) d.rows ∧
      (d.rows.map Row.name).Nodup ∧ Consistent s d := by
  obtain ⟨d, h⟩ := run_consistent ops (mount ⟨[], k⟩) ⟨[], k⟩ (mount_consistent k) s hrun
  refine ⟨d, h.db_eq, ?_, h.names_nodup, h⟩
  have hn := h.names_nodup
  unfold List.Nodup at hn
  rw [List.pairwise_map] at hn
  exact hn

/-! ## Overlapping handlers -/

theorem alone_eq_step (s : AppState) (op : Op) (hen : enabled s op = true) :
    (liveStep (quiet s) (Event.user op)).map (settle 3) =
      some { app := (step s op).1, pending := [], log := (step s op).2 } := by
  cases op with
  | beginEdit item =>
    have hmem : item ∈ s.items := of_decide_eq_true hen
    simp [liveStep, quiet, hmem, settle, step, editItem]
  | requestDelete id answer =>
    cases he : s.editingItem with
    | some e =>
      simp [liveStep, quiet, confirmDeleteItemStart, he, settle, step, confirmDeleteItem]
    | none =>
      cases answer with
      | cancel =>
        simp [liveStep, quiet, confirmDeleteItemStart, he, settle, step, confirmDeleteItem]
      | delete =>
        cases hdb : s.db with
        | none =>
          simp [liveStep, quiet, confirmDeleteItemStart, he, hdb, settle, step,
            confirmDeleteItem]
        | some d =>
          simp [liveStep, quiet, confirmDeleteItemStart, he, hdb, settle, step,
            confirmDeleteItem, resume, fetchItemsStart, fetchItems, Database.selectAll]
  | submit raw =>
    cases hdb : s.db with
    | none =>
      cases he : s.editingItem with
      | none =>
        simp [liveStep, quiet, setText, addItemStart, he, hdb, settle, step, submit,
          pressSubmit, addItem]
      | some e =>
        simp [liveStep, quiet, setText, updateItemStart, he, hdb, settle, step, submit,
          pressSubmit, updateItem]
    | some d =>
      by_cases hne : jsTrim raw = ""
      · cases he : s.editingItem with
        | none =>
          simp [liveStep, quiet, setText, addItemStart, he, hdb, hne, settle, step, submit,
            pressSubmit, addItem]
        | some e =>
          simp [liveStep, quiet, setText, updateItemStart, he, hdb, hne, settle, step, submit,
            pressSubmit, updateItem]
      · cases he : s.editingItem with
        | none =>
          cases hc : checkForDuplicate d (jsTrim raw) with
          | true =>
            simp [liveStep, quiet, setText, addItemStart, he, hdb, hne, hc, settle, step,
              submit, pressSubmit, addItem, resume]
          | false =>
            simp [liveStep, quiet, setText, addItemStart, he, hdb, hne, hc, settle, step,
              submit, pressSubmit, addItem, resume, fetchItemsStart, fetchItems,
              Database.selectAll]
        | some e =>
          by_cases hsame : jsTrim raw = e.name
          · have hne2 : ¬ e.name = "" := fun h0 => hne (hsame.trans h0)
            simp [liveStep, quiet, setText, updateItemStart, he, hdb, hne2, hsame, settle, step,
              submit, pressSubmit, updateItem, resume, fetchItemsStart, fetchItems,
              Database.selectAll]
          · cases hc : checkForDuplicate d (jsTrim raw) with
            | true =>
              simp [liveStep, quiet, setText, updateItemStart, he, hdb, hne, hsame, hc, settle,
                step, submit, pressSubmit, updateItem, resume]
            | false =>
              simp [liveStep, quiet, setText, updateItemStart, he, hdb, hne, hsame, hc, settle,
                step, submit, pressSubmit, updateItem, resume, fetchItemsStart, fetchItems,
                Database.selectAll]

/-- C1 (code defect): on the freshly mounted empty table the user types "Up" and
presses the button twice, the second press before the duplicate query of the
first has returned.  Both presses find the text "Up" (it is cleared only after
the INSERT), both queries are answered before either INSERT and find no row,
both INSERTs are executed, and the table ends with the rows (1, "Up") and
(2, "Up"): two items with the same name.  The same two presses, each left to
finish before the next, store one row and reject the second press. -/
theorem C1_overlapping_presses_duplicate :
    liveRun (quiet initialState)
        [Event.user (Op.submit "Up"), Event.user (Op.submit "Up")] =
      some { app := setText "Up" initialState,
             pending := [Suspended.addCheck "Up", Suspended.addCheck "Up"], log := [] } ∧
    liveRun (quiet initialState)
        [Event.user (Op.submit "Up"), Event.user (Op.submit "Up"),
         Event.complete, Event.complete] =
      some { app := setText "Up" initialState,
             pending := [Suspended.addInsert "Up", Suspended.addInsert "Up"],
             log := [Effect.selectIdByName "Up", Effect.selectIdByName "Up"] } ∧
    liveRun (quiet initialState)
        [Event.user (Op.submit "Up"), Event.user (Op.submit "Up"),
         Event.complete, Event.complete, Event.complete, Event.complete,
         Event.complete, Event.complete] =
      some { app := { db := some ⟨[⟨1, "Up"⟩, ⟨2, "Up"⟩], 2⟩, text := "",
                      items := [⟨1, "Up", 1⟩, ⟨2, "Up", 2⟩], editingItem := none },
             pending := [],
             log := [Effect.selectIdByName "Up", Effect.selectIdByName "Up",
                     Effect.insert "Up", Effect.insert "Up",
                     Effect.selectAll, Effect.selectAll] } ∧
    ¬ List.Pairwise (fun a b : Row => a.name ≠ b.name) [⟨1, "Up"⟩, ⟨2, "Up"⟩] ∧
    ¬ (([⟨1, "Up"⟩, ⟨2, "Up"⟩] : List Row).map Row.name).Nodup ∧
    run initialState [Op.submit "Up", Op.submit "Up"] =
      some { db := some ⟨[⟨1, "Up"⟩], 1⟩, text := "Up", items := [⟨1, "Up", 1⟩],
             editingItem := none } := by
  decide

/-! ## Claims about every table the controller produces -/

/-- C2: in every state the controller reaches from the freshly mounted empty
table, for every text whose trimmed value equals the name of a stored row: in
create mode `addItem` (the button) issues only the select-id-by-name query and
the duplicate alert, and the table, the displayed list, the edit target and the
typed text are unchanged; in update mode, when the trimmed value differs from
the target's name, `updateItem` (the button) does the same, and the session
stays in edit mode with the same target. -/
theorem C2_duplicate_rejected (k : Nat) (ops : List Op) (s : AppState) (d : Database)
    (raw : String) (hrun : run (mount ⟨[], k⟩) ops = some s) (hdb : s.db = some d)
    (hdup : ∃ r ∈ d.rows, r.name = jsTrim raw) :
    (s.editingItem = none →
      addItem (setText raw s) =
        (setText raw s, [Effect.selectIdByName (jsTrim raw), duplicateAlert]) ∧
      submit raw s = (setText raw s, [Effect.selectIdByName (jsTrim raw), duplicateAlert])) ∧
    (∀ e, s.editingItem = some e → jsTrim raw ≠ e.name →
      updateItem (setText raw s) =
        (setText raw s, [Effect.selectIdByName (jsTrim raw), duplicateAlert]) ∧
      submit raw s = (setText raw s, [Effect.selectIdByName (jsTrim raw), duplicateAlert]) ∧
      (submit raw s).1.editingItem = some e ∧ (submit raw s).1.db = some d) := by
  obtain ⟨d2, hc⟩ := run_consistent ops (mount ⟨[], k⟩) ⟨[], k⟩ (mount_consistent k) s hrun
  have hd : d2 = d := Option.some.inj (hc.db_eq.symm.trans hdb)
  subst hd
  obtain ⟨r, hr, hrn⟩ := hdup
  have hne : jsTrim raw ≠ "" := by
    rw [← hrn]
    exact (hc.names_trimmed r hr).1
  exact duplicate_rejected s d2 raw hdb hne ⟨r, hr, hrn⟩

theorem C2_duplicate_rejected_witness :
    submit " Up " (mount ⟨[⟨1, "Up"⟩], 1⟩) =
      (setText " Up " (mount ⟨[⟨1, "Up"⟩], 1⟩), [Effect.selectIdByName "Up", duplicateAlert]) :=
  ((C2_duplicate_rejected 0 [Op.submit "Up"] (mount ⟨[⟨1, "Up"⟩], 1⟩) ⟨[⟨1, "Up"⟩], 1⟩ " Up "
    (by decide) rfl ⟨⟨1, "Up"⟩, by decide, by decide⟩).1 rfl).2

/-- C5: in every state the controller reaches from the freshly mounted empty
table, for every row `X` of the table (as the displayed item, whatever its
position), pressing Edit on it puts `X.name` in the input and makes it the
target; pressing the button on that unchanged text, and submitting any text
whose trimmed value is `X.name`, is not rejected (no alert, no duplicate query),
issues the UPDATE for `X.id`, leaves the table exactly as it was, and ends with
no target, an empty text and the list rebuilt. -/
theorem C5_resubmit_own_name (k : Nat) (ops : List Op) (s : AppState) (d : Database)
    (item : Item) (raw : String) (hrun : run (mount ⟨[], k⟩) ops = some s)
    (hdb : s.db = some d) (hx : item.toRow ∈ d.rows) (hraw : jsTrim raw = item.name) :
    (editItem item s).1.text = item.name ∧
    (editItem item s).1.editingItem = some item ∧
    pressSubmit (editItem item s).1 =
      ({ db := some d, text := "", items := toItems d.rows, editingItem := none },
       [Effect.update item.name item.id, Effect.selectAll]) ∧
    submit raw (editItem item s).1 =
      ({ db := some d, text := "", items := toItems d.rows, editingItem := none },
       [Effect.update item.name item.id, Effect.selectAll]) ∧
    duplicateAlert ∉ (submit raw (editItem item s).1).2 ∧
    emptyNameAlert ∉ (submit raw (editItem item s).1).2 ∧
    d.update item.name item.id = d ∧
    (∀ r : Row, r ∈ (d.update item.name item.id).rows ↔ r ∈ d.rows) := by
  obtain ⟨d2, hc⟩ := run_consistent ops (mount ⟨[], k⟩) ⟨[], k⟩ (mount_consistent k) s hrun
  have hd : d2 = d := Option.some.inj (hc.db_eq.symm.trans hdb)
  subst hd
  have hn := hc.names_trimmed item.toRow hx
  have h := resubmit_own_name s d2 item.toRow item.index raw hdb hc.ids_nodup hx hn.1 hraw
  have hitem : (⟨item.toRow.id, item.toRow.name, item.index⟩ : Item) = item := rfl
  rw [hitem] at h
  have hsub := h.2.2.2.1
  have hupd : d2.update item.name item.id = d2 := h.2.2.1
  refine ⟨h.1, h.2.1, h.2.2.2.2 hn.2, hsub, ?_, ?_, hupd, ?_⟩
  · rw [hsub]
    simp [duplicateAlert]
  · rw [hsub]
    simp [emptyNameAlert]
  · intro r
    rw [hupd]

theorem C5_resubmit_own_name_witness :
    submit "Up  " (editItem ⟨2, "Up", 2⟩ (mount ⟨[⟨1, "Jaws"⟩, ⟨2, "Up"⟩], 2⟩)).1 =
      ({ db := some ⟨[⟨1, "Jaws"⟩, ⟨2, "Up"⟩], 2⟩, text := "",
         items := toItems [⟨1, "Jaws"⟩, ⟨2, "Up"⟩], editingItem := none },
       [Effect.update "Up" 2, Effect.selectAll]) :=
  (C5_resubmit_own_name 0 [Op.submit "Jaws", Op.submit "Up"]
    (mount ⟨[⟨1, "Jaws"⟩, ⟨2, "Up"⟩], 2⟩) ⟨[⟨1, "Jaws"⟩, ⟨2, "Up"⟩], 2⟩ ⟨2, "Up", 2⟩ "Up  "
    (by decide) rfl (by decide) (by decide)).2.2.2.1

/-- C8: whenever `addItem` issues its INSERT, on any table `d` and for the name
`n` it inserts: `n` was the name of no row (the duplicate query had returned no
row), the table becomes `d` with one more row `(d.nextId, n)` whose id no other
row has, and `checkForDuplicate(n)` on it returns true; after the DELETE of that
id, issued by a confirmed `confirmDeleteItem`, the rows are those of `d` and
`checkForDuplicate(n)` returns false. -/
theorem C8_create_exists_remove (s : AppState) (d : Database) (n : String)
    (hdb : s.db = some d) (hins : Effect.insert n ∈ (addItem s).2) :
    jsTrim s.text = n ∧ checkForDuplicate d n = false ∧
    (addItem s).1.db = some (d.insert n) ∧
    (d.insert n).rows = d.rows ++ [⟨d.nextId, n⟩] ∧
    (∀ r ∈ d.rows, r.id ≠ d.nextId) ∧
    checkForDuplicate (d.insert n) n = true ∧
    ((d.insert n).delete d.nextId).rows = d.rows ∧
    checkForDuplicate ((d.insert n).delete d.nextId) n = false ∧
    (s.editingItem = none →
      (confirmDeleteItem d.nextId Answer.delete (addItem s).1).1.db =
        some ((d.insert n).delete d.nextId) ∧
      Effect.delete d.nextId ∈ (confirmDeleteItem d.nextId Answer.delete (addItem s).1).2) := by
  have hfacts : jsTrim s.text = n ∧ checkForDuplicate d n = false ∧
      (addItem s).1.db = some (d.insert n) ∧ (addItem s).1.editingItem = s.editingItem := by
    by_cases hne : jsTrim s.text = ""
    · simp [addItem, hdb, hne, emptyNameAlert] at hins
    · cases hc : checkForDuplicate d (jsTrim s.text) with
      | true => simp [addItem, hdb, hne, hc, duplicateAlert] at hins
      | false =>
        have hn : jsTrim s.text = n := by
          have hn2 : n = jsTrim s.text := by
            simpa [addItem, hdb, hne, hc, fetchItems] using hins
          exact hn2.symm
        subst hn
        refine ⟨rfl, hc, ?_, ?_⟩ <;> simp [addItem, hdb, hne, hc, fetchItems]
  obtain ⟨hn, hc, hdb2, hedit⟩ := hfacts
  have hst := insert_then_delete d n
  have hfresh := (checkForDuplicate_eq_false_iff d n).mp hc
  refine ⟨hn, hc, hdb2, hst.2.1, hst.2.2.1, hst.1, hst.2.2.2.1, hst.2.2.2.2.2 hfresh, ?_⟩
  intro hidle
  have hidle2 : (addItem s).1.editingItem = none := hedit.trans hidle
  constructor <;>
    simp [confirmDeleteItem, hidle2, hdb2, fetchItems]

theorem C8_create_exists_remove_witness :
    checkForDuplicate ((⟨[⟨1, "Jaws"⟩], 1⟩ : Database).insert "Up") "Up" = true ∧
    checkForDuplicate
      (((⟨[⟨1, "Jaws"⟩], 1⟩ : Database).insert "Up").delete
        (⟨[⟨1, "Jaws"⟩], 1⟩ : Database).nextId) "Up" = false :=
  match C8_create_exists_remove (setText " Up" (mount ⟨[⟨1, "Jaws"⟩], 1⟩)) ⟨[⟨1, "Jaws"⟩], 1⟩ "Up"
      rfl (by decide) with
  | ⟨_, _, _, _, _, h6, _, h8, _⟩ => ⟨h6, h8⟩

end MovieApp
